import Mathlib

/-!
Verification development for the ledger balance computation engine of the
orion-ledger accounting system (Django backend).

Shallow embedding notes:
* Monetary amounts (`Decimal` with two decimal places in the source) are
  modelled as integer cents (`Int`); `Decimal('0.01')` is the integer `1`.
* A Django `DateTimeField` value is modelled as a tick count (`Nat`,
  seconds since epoch); a `DateField` value is a day number (`Nat`);
  `datetime.date()` is `ticksPerDay`-division, which is monotone exactly
  like the real projection.
* A queryset is modelled as a `List` in the model's default ordering
  (`ChartOfAccounts` orders by `account_code`, so `State.accounts` is kept
  in that order and `.first()` is the list head).
* `JournalEntryLine` rows are stored inside their owning `JournalEntry`
  (each line belongs to exactly one entry via a non-null foreign key);
  the line table of the database is recovered by `entryRows`.
* Raising an exception is modelled by returning an error value together
  with the (possibly already mutated) state: Django's `objects.create`
  commits immediately and the services use no enclosing transaction, so a
  mid-function exception really does leave earlier writes persisted.
-/

namespace Orion

/-- Account types of `ChartOfAccounts.ACCOUNT_TYPES`. -/
inductive AccountType where
  | ASSET
  | LIABILITY
  | EQUITY
  | REVENUE
  | EXPENSE
deriving DecidableEq, Repr

/-- Values of the `normal_balance` character field. -/
inductive NormalBalance where
  | debit
  | credit
deriving DecidableEq, Repr

/-- A `ChartOfAccounts` row.  `account_name` is kept as a character list so
that the case-insensitive `icontains` lookup can be modelled directly. -/
structure Account where
  id : Nat
  companyId : Nat
  account_name : List Char
  account_type : AccountType
  normal_balance : NormalBalance
  is_active : Bool
deriving DecidableEq, Repr

/-- A `JournalEntryLine` row (the entry foreign key is implicit: lines are
stored inside their `JournalEntry`).  Amounts are integer cents. -/
structure EntryLine where
  accountId : Nat
  debit : Int
  credit : Int
deriving DecidableEq, Repr

/-- A `JournalEntry` row together with its lines.  `day` is the `date`
field as a day number. -/
structure JournalEntry where
  id : Nat
  companyId : Nat
  day : Nat
  lines : List EntryLine
deriving DecidableEq, Repr

/-- A `JournalEntryBalance` row (balance snapshot).  `timestamp` is in
ticks. -/
structure Snapshot where
  companyId : Nat
  accountId : Nat
  timestamp : Nat
  balance : Int
deriving DecidableEq, Repr

/-- The database state relevant to the ledger engine. -/
structure State where
  accounts : List Account
  entries : List JournalEntry
  snapshots : List Snapshot
deriving Repr

/-- A validated business `Transaction` (only the fields read by
`create_journal_entry_from_transaction`).  The `account` foreign key is
dereferenced, as in the Python attribute access `transaction.account`. -/
structure Transaction where
  companyId : Nat
  day : Nat
  amount : Int
  account : Option Account
  is_validated : Bool
deriving Repr

/-- Ticks per day, so that `dateOf` models `datetime.date()`. -/
def ticksPerDay : Nat := 86400

/-- Day number of a tick count: the model of `timestamp.date()`. -/
def dateOf (t : Nat) : Nat := t / ticksPerDay

/-- Last tick of a day: the model of
`datetime.combine(end_date, datetime.max.time())`. -/
def endOfDayTick (d : Nat) : Nat := d * ticksPerDay + (ticksPerDay - 1)

/-- Errors raised by the engine.  `valueErr` stands for Python
`ValueError` (used both for unvalidated transactions and for the missing
contra account configuration error). -/
inductive AccError where
  | futureOp
  | retroactiveOp
  | valueErr
deriving DecidableEq, Repr

/-! ### Chart of Accounts helpers (companies/coa.py)

`COAHelper.get_parent` and `COAHelper.get_children` operate on Python
strings; account codes are modelled as `List Char` and the string
operations `split('.')`, `'.'.join`, `startswith` and slicing are
modelled by the corresponding list functions below. -/

/-- Model of Python `s.split('.')`. -/
def splitOnDot : List Char → List (List Char)
  | [] => [[]]
  | c :: cs =>
    if c = '.' then [] :: splitOnDot cs
    else
      match splitOnDot cs with
      | [] => [[c]]
      | p :: ps => (c :: p) :: ps

/-- Model of Python `'.'.join(parts)`. -/
def joinDot : List (List Char) → List Char
  | [] => []
  | [p] => p
  | p :: ps => p ++ '.' :: joinDot ps

/-- Model of Python `a.startswith(b)` (here: `leadsWith b a`). -/
def leadsWith : List Char → List Char → Bool
  | [], _ => true
  | _ :: _, [] => false
  | a :: as, b :: bs => a = b && leadsWith as bs

/-- COAHelper.get_parent: strip the last dot-separated segment; `none`
for a single-segment code. -/
def get_parent (account_code : List Char) : Option (List Char) :=
  let parts := splitOnDot account_code
  if parts.length ≤ 1 then none
  else some (joinDot parts.dropLast)

/-- COAHelper.get_children: codes in `all_accounts` that extend
`account_code` by a dot and exactly one further dot-free segment. -/
def get_children (account_code : List Char) (all_accounts : List (List Char)) :
    List (List Char) :=
  all_accounts.filter fun acc =>
    leadsWith (account_code ++ ['.']) acc &&
      !((acc.drop (account_code.length + 1)).any fun ch => ch = '.')

/-! ### Journal entry line queries

The services query the `JournalEntryLine` table joined with fields of the
owning `JournalEntry` (`journal_entry__company`, `journal_entry__date`).
`entryRows` materializes that join. -/

/-- A `JournalEntryLine` row joined with its entry's company and date. -/
structure LineRow where
  companyId : Nat
  day : Nat
  line : EntryLine
deriving DecidableEq, Repr

/-- Rows contributed by one journal entry. -/
def entryRowsOf (e : JournalEntry) : List LineRow :=
  e.lines.map fun l => ⟨e.companyId, e.day, l⟩

/-- The full joined `JournalEntryLine` table of a state. -/
def entryRows (s : State) : List LineRow :=
  s.entries.foldr (fun e acc => entryRowsOf e ++ acc) []

/-- Aggregate `Sum('credit') - Sum('debit')` over a row list. -/
def sumCD (rows : List LineRow) : Int :=
  rows.foldr (fun r acc => (r.line.credit - r.line.debit) + acc) 0

/-- Aggregate `Sum('debit') - Sum('credit')` over a row list. -/
def sumDC (rows : List LineRow) : Int :=
  rows.foldr (fun r acc => (r.line.debit - r.line.credit) + acc) 0

/-! ### Balance Snapshot Manager (transactions/balance_manager.py) -/

/-- Snapshot rows of a (company, account) pair, in table order. -/
def snapshotsFor (s : State) (company accountId : Nat) : List Snapshot :=
  s.snapshots.filter fun b => b.companyId = company && b.accountId = accountId

/-- Model of `queryset.latest('timestamp')`: the row with the maximal
timestamp (`none` models the `DoesNotExist` exception). -/
def latestByTimestamp : List Snapshot → Option Snapshot
  | [] => none
  | b :: bs =>
    match latestByTimestamp bs with
    | none => some b
    | some m => if m.timestamp ≤ b.timestamp then some b else some m

/-- JournalEntryBalanceManager.calculate_balance: start from the latest
snapshot at or before `timestamp` (else from 0), then add
`credit - debit` over the account's lines of the company dated strictly
after the snapshot's date and at or before `timestamp`'s date. -/
def calculate_balance (s : State) (company accountId : Nat) (timestamp : Nat) : Int :=
  let rows := (entryRows s).filter fun r =>
    r.line.accountId = accountId && r.companyId = company
  match latestByTimestamp
      ((snapshotsFor s company accountId).filter fun b => b.timestamp ≤ timestamp) with
  | some snap =>
      snap.balance +
        sumCD (rows.filter fun r =>
          dateOf snap.timestamp < r.day && r.day ≤ dateOf timestamp)
  | none =>
      0 + sumCD (rows.filter fun r => r.day ≤ dateOf timestamp)

/-- TrialBalanceService._calculate_balance_direct: direct full-history
summation of `credit - debit` over the account's lines of the company,
restricted to the optional day window. -/
def calculate_balance_direct (s : State) (company accountId : Nat)
    (startDay : Option Nat) (endDay : Nat) : Int :=
  let rows := (entryRows s).filter fun r =>
    r.line.accountId = accountId && r.companyId = company && r.day ≤ endDay
  let rows :=
    match startDay with
    | some sd => rows.filter fun r => sd ≤ r.day
    | none => rows
  sumCD rows

/-- JournalEntryBalanceManager.create_balance: reject future timestamps,
reject timestamps at or before an existing snapshot of the pair, else
persist a snapshot holding `calculate_balance` at `timestamp`. -/
def create_balance (now : Nat) (s : State) (company accountId timestamp : Nat) :
    State × Except AccError Snapshot :=
  if now < timestamp then (s, .error .futureOp)
  else if (snapshotsFor s company accountId).any (fun b => timestamp ≤ b.timestamp) then
    (s, .error .retroactiveOp)
  else
    let snap : Snapshot :=
      ⟨company, accountId, timestamp, calculate_balance s company accountId timestamp⟩
    ({ s with snapshots := s.snapshots ++ [snap] }, .ok snap)

/-- Loop body of JournalEntryBalanceManager.save_balances for one account:
skip accounts with no lines, skip accounts whose latest snapshot already
covers every entry date, else call `create_balance`, swallowing its
domain errors (`except (FutureOperationError, RetroactiveOperationError):
continue`). -/
def processAccount (now : Nat) (company ts : Nat) (s : State) (accountId : Nat) : State :=
  let rows := (entryRows s).filter fun r =>
    r.line.accountId = accountId && r.companyId = company
  if rows.isEmpty then s
  else
    match latestByTimestamp (snapshotsFor s company accountId) with
    | some last =>
        if rows.any (fun r => dateOf last.timestamp < r.day) then
          (create_balance now s company accountId ts).1
        else s
    | none => (create_balance now s company accountId ts).1

/-- JournalEntryBalanceManager.save_balances: run `processAccount` over
the company's active accounts (queried once, before the loop). -/
def save_balances (now : Nat) (s : State) (company ts : Nat) : State :=
  ((s.accounts.filter fun a => a.companyId = company && a.is_active).map
    (fun a => a.id)).foldl (fun st i => processAccount now company ts st i) s

/-! ### Accounting service (transactions/accounting_service.py) -/

/-- Case-insensitive containment of "cash", the model of the Django
lookup `account_name__icontains='cash'`. -/
def hasCashName (name : List Char) : Bool :=
  let lower := name.map Char.toLower
  (List.range (lower.length + 1)).any fun i => leadsWith "cash".toList (lower.drop i)

/-- AccountingService._get_default_contra_account: first ASSET account of
the company whose name contains "cash" (case-insensitively); else the
first ASSET account; else a configuration `ValueError`.  The source
applies no `is_active` filter, and `.first()` takes the model's default
`account_code` ordering, which is the order of `State.accounts`. -/
def get_default_contra_account (s : State) (company : Nat) : Except AccError Account :=
  match (s.accounts.filter fun a =>
      a.companyId = company && a.account_type = AccountType.ASSET &&
        hasCashName a.account_name).head? with
  | some contra => .ok contra
  | none =>
    match (s.accounts.filter fun a =>
        a.companyId = company && a.account_type = AccountType.ASSET).head? with
    | some contra => .ok contra
    | none => .error .valueErr

/-- AccountingService.create_journal_entry_from_transaction.  The entry
row is persisted (with no lines yet) before the contra account is
resolved, exactly as in the source, where `JournalEntry.objects.create`
runs before `_get_default_contra_account` and no enclosing database
transaction exists; a contra-resolution failure therefore leaves the bare
entry behind.  Fresh primary keys are modelled by `s.entries.length`. -/
def createJournalEntryFromTransaction (s : State) (t : Transaction) :
    State × Except AccError JournalEntry :=
  match t.account with
  | none => (s, .error .valueErr)
  | some account =>
    if !t.is_validated then (s, .error .valueErr)
    else
      let eid := s.entries.length
      let bare : JournalEntry := ⟨eid, t.companyId, t.day, []⟩
      let s1 : State := { s with entries := s.entries ++ [bare] }
      let amount : Int := |t.amount|
      match get_default_contra_account s1 t.companyId with
      | .error e => (s1, .error e)
      | .ok contra =>
        let lns : List EntryLine :=
          if 0 < t.amount then
            if account.account_type = AccountType.ASSET ∨
                account.account_type = AccountType.EXPENSE then
              [⟨account.id, amount, 0⟩, ⟨contra.id, 0, amount⟩]
            else
              [⟨account.id, 0, amount⟩, ⟨contra.id, amount, 0⟩]
          else
            if account.account_type = AccountType.ASSET ∨
                account.account_type = AccountType.EXPENSE then
              [⟨account.id, 0, amount⟩, ⟨contra.id, amount, 0⟩]
            else
              [⟨account.id, amount, 0⟩, ⟨contra.id, 0, amount⟩]
        let entry : JournalEntry := ⟨eid, t.companyId, t.day, lns⟩
        ({ s with entries := s.entries ++ [entry] }, .ok entry)

/-- AccountingService.calculate_account_balance: signed balance of one
account over an optional day window.  The source filters by account only
(no company condition on the joined entry). -/
def calculate_account_balance (s : State) (account : Account)
    (startDay endDay : Option Nat) : Int :=
  let rows := (entryRows s).filter fun r => r.line.accountId = account.id
  let rows :=
    match startDay with
    | some sd => rows.filter fun r => sd ≤ r.day
    | none => rows
  let rows :=
    match endDay with
    | some ed => rows.filter fun r => r.day ≤ ed
    | none => rows
  if account.account_type = AccountType.ASSET ∨
      account.account_type = AccountType.EXPENSE then
    sumDC rows
  else
    sumCD rows

/-- First day of the civil year of a day number; the model of
`date(end_date.year, 1, 1)` with years of 365 days. -/
def yearStartDay (d : Nat) : Nat := d - d % 365

/-- Revenue and expense totals of AccountingService.get_income_statement
(the items lists are irrelevant to the claims). -/
def incomeTotals (s : State) (company : Nat) (startDay endDay : Nat) : Int × Int :=
  (s.accounts.filter fun a => a.companyId = company && a.is_active).foldl
    (fun (tot : Int × Int) a =>
      let balance := calculate_account_balance s a (some startDay) (some endDay)
      if balance = 0 then tot
      else if a.account_type = AccountType.REVENUE then (tot.1 + balance, tot.2)
      else if a.account_type = AccountType.EXPENSE then (tot.1, tot.2 + balance)
      else tot) (0, 0)

/-- AccountingService.calculate_net_income with the default period start
(first day of the end date's year). -/
def calculate_net_income (s : State) (company : Nat) (endDay : Nat) : Int :=
  (incomeTotals s company (yearStartDay endDay) endDay).1 -
    (incomeTotals s company (yearStartDay endDay) endDay).2

/-- Totals of AccountingService.get_balance_sheet. -/
structure BalanceSheet where
  total_assets : Int
  total_liabilities : Int
  total_equity : Int
  balanced : Bool
deriving DecidableEq, Repr

/-- AccountingService.get_balance_sheet: partition active accounts of the
company by type, fold current-period net income into equity, and compare
assets against liabilities plus equity within `Decimal('0.01')` (one
cent). -/
def get_balance_sheet (s : State) (company : Nat) (endDay : Nat) : BalanceSheet :=
  let tot := (s.accounts.filter fun a => a.companyId = company && a.is_active).foldl
    (fun (tot : Int × Int × Int) a =>
      let balance := calculate_account_balance s a none (some endDay)
      if balance = 0 then tot
      else if a.account_type = AccountType.ASSET then
        (tot.1 + balance, tot.2.1, tot.2.2)
      else if a.account_type = AccountType.LIABILITY then
        (tot.1, tot.2.1 + balance, tot.2.2)
      else if a.account_type = AccountType.EQUITY then
        (tot.1, tot.2.1, tot.2.2 + balance)
      else tot) (0, 0, 0)
  let net_income := calculate_net_income s company endDay
  let total_equity := tot.2.2 + (if net_income = 0 then 0 else net_income)
  { total_assets := tot.1
    total_liabilities := tot.2.1
    total_equity := total_equity
    balanced := |tot.1 - (tot.2.1 + total_equity)| < 1 }

/-! ### Trial balance service (reports/trial_balance.py) -/

/-- First tick of a day: the model of
`datetime.combine(start_date, datetime.min.time())`. -/
def startOfDayTick (d : Nat) : Nat := d * ticksPerDay

/-- Totals of TrialBalanceService.generate. -/
structure TrialTotals where
  total_debits : Int
  total_credits : Int
  is_balanced : Bool
deriving DecidableEq, Repr

/-- Per-account balance of TrialBalanceService.generate: the snapshot
path (`_calculate_balance_with_snapshots`) or the direct path. -/
def trialAccountBalance (s : State) (useSnapshots : Bool) (company : Nat)
    (a : Account) (startDay : Option Nat) (endDay : Nat) : Int :=
  if useSnapshots then
    let balance := calculate_balance s company a.id (endOfDayTick endDay)
    match startDay with
    | some sd => balance - calculate_balance s company a.id (startOfDayTick sd)
    | none => balance
  else
    calculate_balance_direct s company a.id startDay endDay

/-- TrialBalanceService.generate: loop over the company's active accounts
in code order, skip zero balances, classify each balance into the debit
or credit column from `normal_balance` and the sign of the balance, and
compare the totals within `Decimal('0.01')` (one cent). -/
def generate (s : State) (company : Nat) (startDay : Option Nat) (endDay : Nat)
    (useSnapshots : Bool) : TrialTotals :=
  let tot := (s.accounts.filter fun a => a.companyId = company && a.is_active).foldl
    (fun (tot : Int × Int) a =>
      let balance := trialAccountBalance s useSnapshots company a startDay endDay
      if balance = 0 then tot
      else
        let amounts : Int × Int :=
          if a.normal_balance = NormalBalance.debit then
            if 0 ≤ balance then (balance, 0) else (0, |balance|)
          else
            if 0 ≤ balance then (0, balance) else (|balance|, 0)
        (tot.1 + amounts.1, tot.2 + amounts.2)) (0, 0)
  { total_debits := tot.1
    total_credits := tot.2
    is_balanced := |tot.1 - tot.2| < 1 }

/-- Difference of the three balance-sheet accumulators
(assets − liabilities − pre-income equity), used by the accounting
equation proof. -/
def diff3 (t : Int × Int × Int) : Int := t.1 - t.2.1 - t.2.2

/-- Rows of one account up to a day, in the fused filter shape produced
by `calculate_account_balance` with an end date and no start date. -/
def accountDayRows (s : State) (aId ed : Nat) : List LineRow :=
  (entryRows s).filter fun r => r.day ≤ ed && r.line.accountId = aId

/-! ### Specification-side comparison definitions -/

/-- Contra-account resolution as the specification words it, for
comparison with `get_default_contra_account`: the spec restricts both
lookups to ACTIVE asset accounts, which the source does not. -/
def contraAccountPerClaim (s : State) (company : Nat) : Except AccError Account :=
  match (s.accounts.filter fun a =>
      a.companyId = company && a.is_active && a.account_type = AccountType.ASSET &&
        hasCashName a.account_name).head? with
  | some contra => .ok contra
  | none =>
    match (s.accounts.filter fun a =>
        a.companyId = company && a.is_active &&
          a.account_type = AccountType.ASSET).head? with
    | some contra => .ok contra
    | none => .error .valueErr

/-- The claimed direction table for the two lines of a journal entry
created from a transaction: positive amount debits a debit-natured
(ASSET/EXPENSE) target and credits the contra account; positive amount
credits a credit-natured (REVENUE/LIABILITY/EQUITY) target and debits
the contra account; a negative amount swaps both legs; the magnitude is
always the absolute amount. -/
def claimEntryLines (target contra : Account) (amount : Int) : List EntryLine :=
  if 0 < amount then
    if target.account_type = AccountType.ASSET ∨
        target.account_type = AccountType.EXPENSE then
      [⟨target.id, |amount|, 0⟩, ⟨contra.id, 0, |amount|⟩]
    else
      [⟨target.id, 0, |amount|⟩, ⟨contra.id, |amount|, 0⟩]
  else
    if target.account_type = AccountType.ASSET ∨
        target.account_type = AccountType.EXPENSE then
      [⟨target.id, 0, |amount|⟩, ⟨contra.id, |amount|, 0⟩]
    else
      [⟨target.id, |amount|, 0⟩, ⟨contra.id, 0, |amount|⟩]

/-! ### Concrete fixtures for witnesses and counterexamples -/

/-- Cash account of company 1 (debit-normal asset). -/
def cashAcct : Account := ⟨1, 1, "Cash".toList, .ASSET, .debit, true⟩

/-- Revenue account of company 1 (credit-normal). -/
def revAcct : Account := ⟨2, 1, "Revenue".toList, .REVENUE, .credit, true⟩

/-- Company 1 with one balanced journal entry on day 5: debit Cash
100.00, credit Revenue 100.00. -/
def sampleState : State :=
  { accounts := [cashAcct, revAcct]
    entries := [⟨0, 1, 5, [⟨1, 10000, 0⟩, ⟨2, 0, 10000⟩]⟩]
    snapshots := [] }

/-- Company 1 with the day-5 entry, an accurate Cash snapshot taken on
day 6 (tick 518400), and a later entry on day 8. -/
def snapState : State :=
  { accounts := [cashAcct, revAcct]
    entries := [⟨0, 1, 5, [⟨1, 10000, 0⟩, ⟨2, 0, 10000⟩]⟩,
                ⟨1, 1, 8, [⟨1, 5000, 0⟩, ⟨2, 0, 5000⟩]⟩]
    snapshots := [⟨1, 1, 518400, -10000⟩] }

/-- An inactive asset account of company 2 whose name contains "CASH". -/
def inactiveCashAcct : Account := ⟨3, 2, "Petty CASH box".toList, .ASSET, .debit, false⟩

/-- An active asset account of company 2 without "cash" in its name. -/
def bankAcct : Account := ⟨4, 2, "Bank".toList, .ASSET, .debit, true⟩

/-- Company 2: the inactive cash-named asset account precedes the active
non-cash asset account in code order. -/
def contraState : State := ⟨[inactiveCashAcct, bankAcct], [], []⟩

/-- An expense account of company 3. -/
def rentAcct : Account := ⟨5, 3, "Rent".toList, .EXPENSE, .debit, true⟩

/-- Company 3 has no ASSET account, so contra resolution must fail. -/
def noAssetState : State := ⟨[rentAcct], [], []⟩

/-- A validated expense transaction of company 3. -/
def rentTrans : Transaction := ⟨3, 7, 5000, some rentAcct, true⟩

/-- A validated transaction of company 2 dated day 9999, far in the
future of the `now = 0` clock used in the C6 evaluation. -/
def futureTrans : Transaction := ⟨2, 9999, 5000, some bankAcct, true⟩

/-- A validated negative-amount transaction of company 2 targeting the
asset account `bankAcct`. -/
def negTrans : Transaction := ⟨2, 4, -2500, some bankAcct, true⟩

/-- Liability account of company 4. -/
def loanAcct : Account := ⟨6, 4, "Loan".toList, .LIABILITY, .credit, true⟩

/-- Asset account of company 4. -/
def checkAcct : Account := ⟨7, 4, "Checking".toList, .ASSET, .debit, true⟩

/-- Company 4 with a single balanced entry touching only asset and
liability accounts: debit Checking 200.00, credit Loan 200.00. -/
def bsState : State :=
  ⟨[checkAcct, loanAcct], [⟨0, 4, 3, [⟨7, 20000, 0⟩, ⟨6, 0, 20000⟩]⟩], []⟩

/-- An inactive (soft-deactivated) asset account of company 5. -/
def oldEquipAcct : Account := ⟨8, 5, "Old Equipment".toList, .ASSET, .debit, false⟩

/-- An active liability account of company 5. -/
def loanAcct5 : Account := ⟨9, 5, "Loan".toList, .LIABILITY, .credit, true⟩

/-- Company 5 with one balanced entry that touches only asset and
liability accounts, but whose asset side sits on the inactive account:
debit Old Equipment 100.00, credit Loan 100.00. -/
def bsBugState : State :=
  ⟨[oldEquipAcct, loanAcct5], [⟨0, 5, 3, [⟨8, 10000, 0⟩, ⟨9, 0, 10000⟩]⟩], []⟩

/-! ### General lemmas about the query primitives -/

theorem latestByTimestamp_mem : ∀ {l : List Snapshot} {b : Snapshot},
    latestByTimestamp l = some b → b ∈ l := by
  intro l
  induction l with
  | nil => intro b h; exact absurd h (by simp [latestByTimestamp])
  | cons a l ih =>
    intro b h
    simp only [latestByTimestamp] at h
    cases hl : latestByTimestamp l with
    | none =>
      rw [hl] at h
      dsimp only at h
      injection h with h
      exact h ▸ List.mem_cons_self a l
    | some m =>
      rw [hl] at h
      dsimp only at h
      by_cases hm : m.timestamp ≤ a.timestamp
      · rw [if_pos hm] at h
        injection h with h
        exact h ▸ List.mem_cons_self a l
      · rw [if_neg hm] at h
        injection h with h
        exact List.mem_cons_of_mem a (h ▸ ih hl)

theorem sumCD_append (l₁ l₂ : List LineRow) :
    sumCD (l₁ ++ l₂) = sumCD l₁ + sumCD l₂ := by
  induction l₁ with
  | nil => simp [sumCD]
  | cons r l ih => simp only [List.cons_append, sumCD, List.foldr_cons] at ih ⊢; omega

theorem sumDC_append (l₁ l₂ : List LineRow) :
    sumDC (l₁ ++ l₂) = sumDC l₁ + sumDC l₂ := by
  induction l₁ with
  | nil => simp [sumDC]
  | cons r l ih => simp only [List.cons_append, sumDC, List.foldr_cons] at ih ⊢; omega

theorem sumCD_eq_neg_sumDC (l : List LineRow) : sumCD l = -sumDC l := by
  induction l with
  | nil => simp [sumCD, sumDC]
  | cons r l ih => simp only [sumCD, sumDC, List.foldr_cons] at ih ⊢; omega

theorem sumCD_filter_split (p q pr : LineRow → Bool) (l : List LineRow)
    (h : ∀ x, pr x = (p x || q x)) (hd : ∀ x, ¬(p x = true ∧ q x = true)) :
    sumCD (l.filter p) + sumCD (l.filter q) = sumCD (l.filter pr) := by
  induction l with
  | nil => simp [sumCD]
  | cons x l ih =>
    have hx := h x
    simp only [sumCD, List.foldr_cons] at ih
    cases hp : p x <;> cases hq : q x <;> rw [hp, hq] at hx
    · simp only [List.filter_cons, hp, hq, hx, Bool.or_self]
      exact ih
    · simp [List.filter_cons, hp, hq, hx, sumCD]
      omega
    · simp [List.filter_cons, hp, hq, hx, sumCD]
      omega
    · exact absurd ⟨hp, hq⟩ (hd x)

theorem sumDC_filter_split (p q pr : LineRow → Bool) (l : List LineRow)
    (h : ∀ x, pr x = (p x || q x)) (hd : ∀ x, ¬(p x = true ∧ q x = true)) :
    sumDC (l.filter p) + sumDC (l.filter q) = sumDC (l.filter pr) := by
  induction l with
  | nil => simp [sumDC]
  | cons x l ih =>
    have hx := h x
    simp only [sumDC, List.foldr_cons] at ih
    cases hp : p x <;> cases hq : q x <;> rw [hp, hq] at hx
    · simp only [List.filter_cons, hp, hq, hx, Bool.or_self]
      exact ih
    · simp [List.filter_cons, hp, hq, hx, sumDC]
      omega
    · simp [List.filter_cons, hp, hq, hx, sumDC]
      omega
    · exact absurd ⟨hp, hq⟩ (hd x)

theorem mem_entryRows {s : State} {r : LineRow} :
    r ∈ entryRows s ↔ ∃ e ∈ s.entries, r ∈ entryRowsOf e := by
  show r ∈ s.entries.foldr (fun e acc => entryRowsOf e ++ acc) [] ↔ _
  induction s.entries with
  | nil => simp
  | cons e es ih => simp [List.mem_append, ih]

theorem sumCD_filter_entryRows (p : LineRow → Bool) (es : List JournalEntry) :
    sumCD ((es.foldr (fun e acc => entryRowsOf e ++ acc) []).filter p) =
      es.foldr (fun e acc => sumCD ((entryRowsOf e).filter p) + acc) 0 := by
  induction es with
  | nil => simp [sumCD]
  | cons e es ih => simp [List.filter_append, sumCD_append, ih]

theorem sumDC_filter_entryRows (p : LineRow → Bool) (es : List JournalEntry) :
    sumDC ((es.foldr (fun e acc => entryRowsOf e ++ acc) []).filter p) =
      es.foldr (fun e acc => sumDC ((entryRowsOf e).filter p) + acc) 0 := by
  induction es with
  | nil => simp [sumDC]
  | cons e es ih => simp [List.filter_append, sumDC_append, ih]

/-! ### Lemmas about the COA string helpers -/

theorem splitOnDot_ne_nil (l : List Char) : splitOnDot l ≠ [] := by
  cases l with
  | nil => simp [splitOnDot]
  | cons c cs =>
    simp only [splitOnDot]
    by_cases hc : c = '.'
    · simp [hc]
    · simp only [if_neg hc]
      cases h : splitOnDot cs <;> simp

theorem splitOnDot_nodot : ∀ (r : List Char), (∀ ch ∈ r, ch ≠ '.') →
    splitOnDot r = [r]
  | [], _ => rfl
  | c :: cs, h => by
    have hc : c ≠ '.' := h c (List.mem_cons_self c cs)
    have ih := splitOnDot_nodot cs (fun ch hch => h ch (List.mem_cons_of_mem c hch))
    simp [splitOnDot, if_neg hc, ih]

theorem joinDot_splitOnDot : ∀ (l : List Char), joinDot (splitOnDot l) = l
  | [] => rfl
  | c :: cs => by
    have ih := joinDot_splitOnDot cs
    simp only [splitOnDot]
    by_cases hc : c = '.'
    · subst hc
      simp only [if_pos rfl]
      cases h : splitOnDot cs with
      | nil => exact absurd h (splitOnDot_ne_nil cs)
      | cons q qs =>
        rw [h] at ih
        show [] ++ '.' :: joinDot (q :: qs) = '.' :: cs
        simp [ih]
    · simp only [if_neg hc]
      cases h : splitOnDot cs with
      | nil => exact absurd h (splitOnDot_ne_nil cs)
      | cons q qs =>
        rw [h] at ih
        cases qs with
        | nil =>
          show c :: q = c :: cs
          have : q = cs := ih
          rw [this]
        | cons q2 qs2 =>
          show (c :: q) ++ '.' :: joinDot (q2 :: qs2) = c :: cs
          have : q ++ '.' :: joinDot (q2 :: qs2) = cs := ih
          simp [this]

theorem splitOnDot_cons_dot (cs : List Char) :
    splitOnDot ('.' :: cs) = [] :: splitOnDot cs := by
  simp [splitOnDot]

theorem splitOnDot_cons_ne (c : Char) (cs : List Char) (hc : c ≠ '.') :
    splitOnDot (c :: cs) =
      match splitOnDot cs with
      | [] => [[c]]
      | q :: qs => (c :: q) :: qs := by
  simp [splitOnDot, hc]

theorem splitOnDot_append : ∀ (p r : List Char), (∀ ch ∈ r, ch ≠ '.') →
    splitOnDot (p ++ '.' :: r) = splitOnDot p ++ [r]
  | [], r, h => by
    simp [splitOnDot_cons_dot, splitOnDot_nodot r h, splitOnDot]
  | c :: p, r, h => by
    have ih := splitOnDot_append p r h
    by_cases hc : c = '.'
    · subst hc
      rw [List.cons_append, splitOnDot_cons_dot, splitOnDot_cons_dot, ih]
      rfl
    · rw [List.cons_append, splitOnDot_cons_ne c _ hc, splitOnDot_cons_ne c _ hc, ih]
      cases hp : splitOnDot p with
      | nil => exact absurd hp (splitOnDot_ne_nil p)
      | cons q qs => rfl

theorem leadsWith_exists : ∀ (xs ys : List Char), leadsWith xs ys = true →
    ∃ zs, ys = xs ++ zs
  | [], ys, _ => ⟨ys, rfl⟩
  | x :: xs, [], h => by simp [leadsWith] at h
  | x :: xs, y :: ys, h => by
    simp only [leadsWith, Bool.and_eq_true, decide_eq_true_eq] at h
    obtain ⟨h1, h2⟩ := h
    obtain ⟨zs, hz⟩ := leadsWith_exists xs ys h2
    exact ⟨zs, by rw [h1, hz]; rfl⟩

theorem head_filter_eq_find (p : α → Bool) (l : List α) :
    (l.filter p).head? = l.find? p := by
  induction l with
  | nil => rfl
  | cons a l ih =>
    by_cases hp : p a = true
    · simp [List.filter_cons, List.find?_cons, hp]
    · simp only [Bool.not_eq_true] at hp
      simp [List.filter_cons, List.find?_cons, hp, ih]

/-- The contra lookup only reads the account table, so it is unaffected
by changes to entries and snapshots. -/
theorem get_default_contra_account_state (s : State) (es : List JournalEntry)
    (company : Nat) :
    get_default_contra_account { s with entries := es } company =
      get_default_contra_account s company := rfl

/-- Normal form of the direct balance computation with no period start:
one filter pass over the joined line table. -/
theorem calculate_balance_direct_none (s : State) (company accountId endDay : Nat) :
    calculate_balance_direct s company accountId none endDay =
      sumCD ((entryRows s).filter fun r =>
        r.line.accountId = accountId && r.companyId = company &&
          r.day ≤ endDay) := rfl

/-- Commuting the two conjuncts of a filter predicate. -/
theorem sumCD_filter_and_comm (p q : LineRow → Bool) (l : List LineRow) :
    sumCD (l.filter fun a => p a && q a) = sumCD (l.filter fun a => q a && p a) := by
  apply congrArg
  apply List.filter_congr
  intro a _
  rw [Bool.and_comm]

/-- Splitting a day-bounded sum at an intermediate day `d0 ≤ d1`. -/
theorem sumCD_day_split (w : LineRow → Bool) (base : List LineRow) (d0 d1 : Nat)
    (hle : d0 ≤ d1) :
    sumCD (base.filter fun r => w r && decide (r.day ≤ d0)) +
      sumCD (base.filter fun r =>
        (decide (d0 < r.day) && decide (r.day ≤ d1)) && w r) =
      sumCD (base.filter fun r => w r && decide (r.day ≤ d1)) := by
  apply sumCD_filter_split
  · intro x
    cases hw : w x
    · simp
    · simp only [Bool.true_and, Bool.and_true]
      by_cases h1 : x.day ≤ d0 <;> by_cases h2 : x.day ≤ d1 <;>
        simp [h1, h2] <;> omega
  · intro x hx
    obtain ⟨hp, hq⟩ := hx
    simp only [Bool.and_eq_true, decide_eq_true_eq] at hp hq
    omega

/-! ### Lemmas for save_balances idempotence -/

theorem create_balance_fst_entries (now : Nat) (s : State) (c aId ts : Nat) :
    (create_balance now s c aId ts).1.entries = s.entries := by
  unfold create_balance
  split
  · rfl
  · split
    · rfl
    · rfl

theorem create_balance_fst_accounts (now : Nat) (s : State) (c aId ts : Nat) :
    (create_balance now s c aId ts).1.accounts = s.accounts := by
  unfold create_balance
  split
  · rfl
  · split
    · rfl
    · rfl

theorem snapshotsFor_create_balance (now : Nat) (s : State) (c aId ts c2 j : Nat)
    (hj : j ≠ aId) :
    snapshotsFor (create_balance now s c aId ts).1 c2 j = snapshotsFor s c2 j := by
  unfold create_balance
  split
  · rfl
  · split
    · rfl
    · unfold snapshotsFor
      dsimp only
      rw [List.filter_append]
      simp [Ne.symm hj]

theorem processAccount_entries (now c ts : Nat) (st : State) (i : Nat) :
    (processAccount now c ts st i).entries = st.entries := by
  unfold processAccount
  dsimp only
  by_cases hempty : ((entryRows st).filter fun r =>
      r.line.accountId = i && r.companyId = c).isEmpty
  · rw [if_pos hempty]
  · rw [if_neg hempty]
    cases hlast : latestByTimestamp (snapshotsFor st c i) with
    | some last =>
      dsimp only
      by_cases hnew : ((entryRows st).filter fun r =>
          r.line.accountId = i && r.companyId = c).any
            (fun r => dateOf last.timestamp < r.day)
      · rw [if_pos hnew]
        exact create_balance_fst_entries now st c i ts
      · rw [if_neg hnew]
    | none =>
      dsimp only
      exact create_balance_fst_entries now st c i ts

theorem processAccount_accounts (now c ts : Nat) (st : State) (i : Nat) :
    (processAccount now c ts st i).accounts = st.accounts := by
  unfold processAccount
  dsimp only
  by_cases hempty : ((entryRows st).filter fun r =>
      r.line.accountId = i && r.companyId = c).isEmpty
  · rw [if_pos hempty]
  · rw [if_neg hempty]
    cases hlast : latestByTimestamp (snapshotsFor st c i) with
    | some last =>
      dsimp only
      by_cases hnew : ((entryRows st).filter fun r =>
          r.line.accountId = i && r.companyId = c).any
            (fun r => dateOf last.timestamp < r.day)
      · rw [if_pos hnew]
        exact create_balance_fst_accounts now st c i ts
      · rw [if_neg hnew]
    | none =>
      dsimp only
      exact create_balance_fst_accounts now st c i ts

theorem snapshotsFor_processAccount (now c ts : Nat) (st : State) (i c2 j : Nat)
    (hj : j ≠ i) :
    snapshotsFor (processAccount now c ts st i) c2 j = snapshotsFor st c2 j := by
  unfold processAccount
  dsimp only
  by_cases hempty : ((entryRows st).filter fun r =>
      r.line.accountId = i && r.companyId = c).isEmpty
  · rw [if_pos hempty]
  · rw [if_neg hempty]
    cases hlast : latestByTimestamp (snapshotsFor st c i) with
    | some last =>
      dsimp only
      by_cases hnew : ((entryRows st).filter fun r =>
          r.line.accountId = i && r.companyId = c).any
            (fun r => dateOf last.timestamp < r.day)
      · rw [if_pos hnew]
        exact snapshotsFor_create_balance now st c i ts c2 j hj
      · rw [if_neg hnew]
    | none =>
      dsimp only
      exact snapshotsFor_create_balance now st c i ts c2 j hj

theorem entryRows_congr {s s2 : State} (h : s2.entries = s.entries) :
    entryRows s2 = entryRows s := by
  unfold entryRows
  rw [h]

theorem latestByTimestamp_append_max (l : List Snapshot) (b : Snapshot)
    (h : ∀ x ∈ l, x.timestamp < b.timestamp) :
    latestByTimestamp (l ++ [b]) = some b := by
  induction l with
  | nil => rfl
  | cons a l ih =>
    have hb := h a (List.mem_cons_self a l)
    rw [List.cons_append]
    show (match latestByTimestamp (l ++ [b]) with
      | none => some a
      | some m => if m.timestamp ≤ a.timestamp then some a else some m) = some b
    rw [ih (fun x hx => h x (List.mem_cons_of_mem a hx))]
    dsimp only
    rw [if_neg (by omega)]

theorem create_balance_fst_eq_self (now : Nat) (s : State) (c aId ts : Nat)
    (h : (create_balance now s c aId ts).1 = s) :
    now < ts ∨ (snapshotsFor s c aId).any (fun b => ts ≤ b.timestamp) = true := by
  by_contra hcon
  obtain ⟨h1, h2⟩ := not_or.mp hcon
  rw [Bool.not_eq_true] at h2
  unfold create_balance at h
  rw [if_neg h1, if_neg (by rw [h2]; exact Bool.false_ne_true)] at h
  have hsn := congrArg State.snapshots h
  dsimp only at hsn
  have hl := congrArg List.length hsn
  rw [List.length_append] at hl
  simp at hl

theorem create_balance_fst_of_error (now : Nat) (s : State) (c aId ts : Nat)
    (h : now < ts ∨ (snapshotsFor s c aId).any (fun b => ts ≤ b.timestamp) = true) :
    (create_balance now s c aId ts).1 = s := by
  unfold create_balance
  by_cases h1 : now < ts
  · rw [if_pos h1]
  · rw [if_neg h1, if_pos (h.resolve_left h1)]

/-- Running the save_balances loop body twice in a row for the same
account is the same as running it once. -/
theorem processAccount_idem (now c ts : Nat) (st : State) (i : Nat) :
    processAccount now c ts (processAccount now c ts st i) i =
      processAccount now c ts st i := by
  by_cases hrows : ((entryRows st).filter fun r =>
      r.line.accountId = i && r.companyId = c).isEmpty
  · have hu : processAccount now c ts st i = st := by
      unfold processAccount
      dsimp only
      rw [if_pos hrows]
    rw [hu]
    exact hu
  · cases hlast : latestByTimestamp (snapshotsFor st c i) with
    | some last =>
      by_cases hnew : ((entryRows st).filter fun r =>
          r.line.accountId = i && r.companyId = c).any
            (fun r => dateOf last.timestamp < r.day)
      · by_cases herr : now < ts ∨
            (snapshotsFor st c i).any (fun b => ts ≤ b.timestamp) = true
        · have hu : processAccount now c ts st i = st := by
            unfold processAccount
            dsimp only
            rw [if_neg hrows, hlast]
            dsimp only
            rw [if_pos hnew]
            exact create_balance_fst_of_error now st c i ts herr
          rw [hu]
          exact hu
        · obtain ⟨h1, h2⟩ := not_or.mp herr
          rw [Bool.not_eq_true] at h2
          have hold : ∀ x ∈ snapshotsFor st c i, x.timestamp < ts := by
            intro x hx
            by_contra hxts
            have : (snapshotsFor st c i).any (fun b => ts ≤ b.timestamp) = true :=
              List.any_eq_true.mpr ⟨x, hx, decide_eq_true (by omega)⟩
            rw [h2] at this
            exact Bool.false_ne_true this
          have hu : processAccount now c ts st i =
              { st with snapshots := st.snapshots ++
                [⟨c, i, ts, calculate_balance st c i ts⟩] } := by
            unfold processAccount
            dsimp only
            rw [if_neg hrows, hlast]
            dsimp only
            rw [if_pos hnew]
            unfold create_balance
            rw [if_neg h1, if_neg (by rw [h2]; exact Bool.false_ne_true)]
          rw [hu]
          have hE : entryRows { st with snapshots := st.snapshots ++
              [⟨c, i, ts, calculate_balance st c i ts⟩] } = entryRows st := rfl
          have hSF : snapshotsFor { st with snapshots := st.snapshots ++
              [⟨c, i, ts, calculate_balance st c i ts⟩] } c i =
              snapshotsFor st c i ++ [⟨c, i, ts, calculate_balance st c i ts⟩] := by
            unfold snapshotsFor
            dsimp only
            rw [List.filter_append]
            simp
          have hmax : latestByTimestamp (snapshotsFor { st with
              snapshots := st.snapshots ++
                [⟨c, i, ts, calculate_balance st c i ts⟩] } c i) =
              some ⟨c, i, ts, calculate_balance st c i ts⟩ := by
            rw [hSF]
            exact latestByTimestamp_append_max _ _ hold
          unfold processAccount
          dsimp only
          rw [hE, if_neg hrows, hmax]
          dsimp only
          by_cases hnew2 : ((entryRows st).filter fun r =>
              r.line.accountId = i && r.companyId = c).any
                (fun r => dateOf ts < r.day)
          · rw [if_pos hnew2]
            apply create_balance_fst_of_error
            right
            apply List.any_eq_true.mpr
            refine ⟨⟨c, i, ts, calculate_balance st c i ts⟩, ?_, decide_eq_true le_rfl⟩
            rw [hSF]
            exact List.mem_append_right _ (List.mem_cons_self _ _)
          · rw [if_neg hnew2]
      · have hu : processAccount now c ts st i = st := by
          unfold processAccount
          dsimp only
          rw [if_neg hrows, hlast]
          dsimp only
          rw [if_neg hnew]
        rw [hu]
        exact hu
    | none =>
      by_cases herr : now < ts ∨
          (snapshotsFor st c i).any (fun b => ts ≤ b.timestamp) = true
      · have hu : processAccount now c ts st i = st := by
          unfold processAccount
          dsimp only
          rw [if_neg hrows, hlast]
          dsimp only
          exact create_balance_fst_of_error now st c i ts herr
        rw [hu]
        exact hu
      · obtain ⟨h1, h2⟩ := not_or.mp herr
        rw [Bool.not_eq_true] at h2
        have hold : ∀ x ∈ snapshotsFor st c i, x.timestamp < ts := by
          intro x hx
          by_contra hxts
          have : (snapshotsFor st c i).any (fun b => ts ≤ b.timestamp) = true :=
            List.any_eq_true.mpr ⟨x, hx, decide_eq_true (by omega)⟩
          rw [h2] at this
          exact Bool.false_ne_true this
        have hu : processAccount now c ts st i =
            { st with snapshots := st.snapshots ++
              [⟨c, i, ts, calculate_balance st c i ts⟩] } := by
          unfold processAccount
          dsimp only
          rw [if_neg hrows, hlast]
          dsimp only
          unfold create_balance
          rw [if_neg h1, if_neg (by rw [h2]; exact Bool.false_ne_true)]
        rw [hu]
        have hE : entryRows { st with snapshots := st.snapshots ++
            [⟨c, i, ts, calculate_balance st c i ts⟩] } = entryRows st := rfl
        have hSF : snapshotsFor { st with snapshots := st.snapshots ++
            [⟨c, i, ts, calculate_balance st c i ts⟩] } c i =
            snapshotsFor st c i ++ [⟨c, i, ts, calculate_balance st c i ts⟩] := by
          unfold snapshotsFor
          dsimp only
          rw [List.filter_append]
          simp
        have hmax : latestByTimestamp (snapshotsFor { st with
            snapshots := st.snapshots ++
              [⟨c, i, ts, calculate_balance st c i ts⟩] } c i) =
            some ⟨c, i, ts, calculate_balance st c i ts⟩ := by
          rw [hSF]
          exact latestByTimestamp_append_max _ _ hold
        unfold processAccount
        dsimp only
        rw [hE, if_neg hrows, hmax]
        dsimp only
        by_cases hnew2 : ((entryRows st).filter fun r =>
            r.line.accountId = i && r.companyId = c).any
              (fun r => dateOf ts < r.day)
        · rw [if_pos hnew2]
          apply create_balance_fst_of_error
          right
          apply List.any_eq_true.mpr
          refine ⟨⟨c, i, ts, calculate_balance st c i ts⟩, ?_, decide_eq_true le_rfl⟩
          rw [hSF]
          exact List.mem_append_right _ (List.mem_cons_self _ _)
        · rw [if_neg hnew2]

/-- The loop body's decisions only read the entry table and the
(company, account) snapshot slice, so a fixpoint transports to any state
agreeing on those. -/
theorem processAccount_congr (now c ts : Nat) (st st2 : State) (i : Nat)
    (he : st2.entries = st.entries)
    (hs : snapshotsFor st2 c i = snapshotsFor st c i)
    (hfix : processAccount now c ts st i = st) :
    processAccount now c ts st2 i = st2 := by
  have hrows : entryRows st2 = entryRows st := entryRows_congr he
  by_cases hempty : ((entryRows st).filter fun r =>
      r.line.accountId = i && r.companyId = c).isEmpty
  · unfold processAccount
    dsimp only
    rw [hrows, if_pos hempty]
  · cases hlast : latestByTimestamp (snapshotsFor st c i) with
    | some last =>
      by_cases hnew : ((entryRows st).filter fun r =>
          r.line.accountId = i && r.companyId = c).any
            (fun r => dateOf last.timestamp < r.day)
      · have hcb : (create_balance now st c i ts).1 = st := by
          have := hfix
          unfold processAccount at this
          dsimp only at this
          rw [if_neg hempty, hlast] at this
          dsimp only at this
          rw [if_pos hnew] at this
          exact this
        have herr := create_balance_fst_eq_self now st c i ts hcb
        unfold processAccount
        dsimp only
        rw [hrows, if_neg hempty, hs, hlast]
        dsimp only
        rw [if_pos hnew]
        exact create_balance_fst_of_error now st2 c i ts (by rw [hs]; exact herr)
      · unfold processAccount
        dsimp only
        rw [hrows, if_neg hempty, hs, hlast]
        dsimp only
        rw [if_neg hnew]
    | none =>
      have hcb : (create_balance now st c i ts).1 = st := by
        have := hfix
        unfold processAccount at this
        dsimp only at this
        rw [if_neg hempty, hlast] at this
        dsimp only at this
        exact this
      have herr := create_balance_fst_eq_self now st c i ts hcb
      unfold processAccount
      dsimp only
      rw [hrows, if_neg hempty, hs, hlast]
      dsimp only
      exact create_balance_fst_of_error now st2 c i ts (by rw [hs]; exact herr)

theorem foldl_processAccount_entries (now c ts : Nat) :
    ∀ (L : List Nat) (st : State),
      (L.foldl (fun st i => processAccount now c ts st i) st).entries = st.entries
  | [], _ => rfl
  | i :: L, st => by
    rw [List.foldl_cons, foldl_processAccount_entries now c ts L,
      processAccount_entries]

theorem foldl_processAccount_accounts (now c ts : Nat) :
    ∀ (L : List Nat) (st : State),
      (L.foldl (fun st i => processAccount now c ts st i) st).accounts = st.accounts
  | [], _ => rfl
  | i :: L, st => by
    rw [List.foldl_cons, foldl_processAccount_accounts now c ts L,
      processAccount_accounts]

theorem foldl_processAccount_snapshotsFor (now c ts : Nat) :
    ∀ (L : List Nat) (st : State) (c2 j : Nat), j ∉ L →
      snapshotsFor (L.foldl (fun st i => processAccount now c ts st i) st) c2 j =
        snapshotsFor st c2 j
  | [], _, _, _, _ => rfl
  | i :: L, st, c2, j, hj => by
    rw [List.foldl_cons,
      foldl_processAccount_snapshotsFor now c ts L _ c2 j
        (fun h => hj (List.mem_cons_of_mem i h)),
      snapshotsFor_processAccount now c ts st i c2 j
        (fun h => hj (h ▸ List.mem_cons_self i L))]

theorem foldl_processAccount_idem (now c ts : Nat) :
    ∀ (L : List Nat) (st : State), L.Nodup →
      L.foldl (fun st i => processAccount now c ts st i)
        (L.foldl (fun st i => processAccount now c ts st i) st) =
      L.foldl (fun st i => processAccount now c ts st i) st
  | [], _, _ => rfl
  | i :: L, st, hnd => by
    obtain ⟨hni, hndL⟩ := List.nodup_cons.mp hnd
    rw [List.foldl_cons, List.foldl_cons]
    have hfix : processAccount now c ts (processAccount now c ts st i) i =
        processAccount now c ts st i := processAccount_idem now c ts st i
    have he : (L.foldl (fun st i => processAccount now c ts st i)
        (processAccount now c ts st i)).entries =
        (processAccount now c ts st i).entries :=
      foldl_processAccount_entries now c ts L _
    have hs : snapshotsFor (L.foldl (fun st i => processAccount now c ts st i)
        (processAccount now c ts st i)) c i =
        snapshotsFor (processAccount now c ts st i) c i :=
      foldl_processAccount_snapshotsFor now c ts L _ c i hni
    rw [processAccount_congr now c ts (processAccount now c ts st i) _ i he hs hfix]
    exact foldl_processAccount_idem now c ts L (processAccount now c ts st i) hndL

/-! ### Lemmas for the balance sheet accounting equation -/

theorem calculate_account_balance_nf (s : State) (a : Account) (ed : Nat) :
    calculate_account_balance s a none (some ed) =
      if a.account_type = AccountType.ASSET ∨
          a.account_type = AccountType.EXPENSE then
        sumDC (accountDayRows s a.id ed)
      else
        -sumDC (accountDayRows s a.id ed) := by
  unfold calculate_account_balance accountDayRows
  dsimp only
  rw [List.filter_filter]
  by_cases h : a.account_type = AccountType.ASSET ∨
      a.account_type = AccountType.EXPENSE
  · rw [if_pos h, if_pos h]
  · rw [if_neg h, if_neg h, sumCD_eq_neg_sumDC]

theorem account_id_inj {s : State} (hnodup : (s.accounts.map Account.id).Nodup)
    {a b : Account} (ha : a ∈ s.accounts) (hb : b ∈ s.accounts)
    (h : a.id = b.id) : a = b :=
  List.inj_on_of_nodup_map hnodup ha hb h

theorem mem_entryRowsOf {e : JournalEntry} {r : LineRow} :
    r ∈ entryRowsOf e ↔ ∃ l ∈ e.lines, r = ⟨e.companyId, e.day, l⟩ := by
  simp [entryRowsOf, List.mem_map, eq_comm]

/-- Under the ownership and type hypotheses, no journal entry line can
reference a company account whose type is not asset, liability or
equity. -/
theorem no_row_on_nonALE (s : State) (company : Nat)
    (hnodup : (s.accounts.map Account.id).Nodup)
    (hown : ∀ e ∈ s.entries, ∀ l ∈ e.lines, ∃ a2 ∈ s.accounts,
        a2.id = l.accountId ∧ a2.companyId = e.companyId)
    (htype : ∀ e ∈ s.entries, e.companyId = company → ∀ l ∈ e.lines,
        ∀ a2 ∈ s.accounts, a2.id = l.accountId →
          a2.is_active = true ∧ (a2.account_type = AccountType.ASSET ∨
            a2.account_type = AccountType.LIABILITY ∨
            a2.account_type = AccountType.EQUITY))
    (a : Account) (ha : a ∈ s.accounts) (hcomp : a.companyId = company)
    (hna : ¬(a.account_type = AccountType.ASSET ∨
      a.account_type = AccountType.LIABILITY ∨
      a.account_type = AccountType.EQUITY)) :
    ∀ r ∈ entryRows s, r.line.accountId ≠ a.id := by
  intro r hr heq
  obtain ⟨e, he, hre⟩ := mem_entryRows.mp hr
  obtain ⟨l, hl, hrl⟩ := mem_entryRowsOf.mp hre
  subst hrl
  dsimp only at heq
  obtain ⟨a2, ha2, hid2, hc2⟩ := hown e he l hl
  have haa : a2 = a := account_id_inj hnodup ha2 ha (by rw [hid2, heq])
  subst haa
  have hec : e.companyId = company := by rw [← hc2]; exact hcomp
  exact hna (htype e he hec l hl a2 ha2 hid2).2

theorem accountDayRows_nil (s : State) (a : Account) (ed : Nat)
    (h : ∀ r ∈ entryRows s, r.line.accountId ≠ a.id) :
    accountDayRows s a.id ed = [] := by
  unfold accountDayRows
  rw [List.filter_eq_nil_iff]
  intro r hr
  simp [h r hr]

theorem cab_zero_of_no_rows (s : State) (a : Account) (sd ed : Nat)
    (h : ∀ r ∈ entryRows s, r.line.accountId ≠ a.id) :
    calculate_account_balance s a (some sd) (some ed) = 0 := by
  unfold calculate_account_balance
  dsimp only
  have hnil : (entryRows s).filter (fun r => r.line.accountId = a.id) = [] := by
    rw [List.filter_eq_nil_iff]
    intro r hr
    simp [h r hr]
  rw [hnil]
  simp [sumCD, sumDC]

theorem foldl_fixed {α β : Type} (f : β → α → β) :
    ∀ (L : List α) (t : β), (∀ a ∈ L, ∀ t2, f t2 a = t2) → L.foldl f t = t
  | [], _, _ => rfl
  | a :: L, t, h => by
    rw [List.foldl_cons, h a (List.mem_cons_self a L) t]
    exact foldl_fixed f L t (fun x hx t2 => h x (List.mem_cons_of_mem a hx) t2)

theorem foldr_add_zero {α : Type} (g : α → Int) :
    ∀ (L : List α), (∀ a ∈ L, g a = 0) →
      L.foldr (fun a acc => g a + acc) 0 = 0
  | [], _ => rfl
  | a :: L, h => by
    rw [List.foldr_cons, h a (List.mem_cons_self a L),
      foldr_add_zero g L (fun x hx => h x (List.mem_cons_of_mem a hx))]
    rfl

theorem foldr_add_congr {α : Type} (g g2 : α → Int) :
    ∀ (L : List α), (∀ a ∈ L, g a = g2 a) →
      L.foldr (fun a acc => g a + acc) 0 = L.foldr (fun a acc => g2 a + acc) 0
  | [], _ => rfl
  | a :: L, h => by
    rw [List.foldr_cons, List.foldr_cons, h a (List.mem_cons_self a L),
      foldr_add_congr g g2 L (fun x hx => h x (List.mem_cons_of_mem a hx))]

/-- One step of the balance sheet accumulation changes the accounting
difference by the account's debit-minus-credit row sum when the account
is asset, liability or equity, and by nothing otherwise. -/
theorem bs_step_diff (s : State) (ed : Nat) (a : Account) (t : Int × Int × Int) :
    diff3 ((fun (tot : Int × Int × Int) a =>
      let balance := calculate_account_balance s a none (some ed)
      if balance = 0 then tot
      else if a.account_type = AccountType.ASSET then
        (tot.1 + balance, tot.2.1, tot.2.2)
      else if a.account_type = AccountType.LIABILITY then
        (tot.1, tot.2.1 + balance, tot.2.2)
      else if a.account_type = AccountType.EQUITY then
        (tot.1, tot.2.1, tot.2.2 + balance)
      else tot) t a) =
      diff3 t + (if a.account_type = AccountType.ASSET ∨
          a.account_type = AccountType.LIABILITY ∨
          a.account_type = AccountType.EQUITY then
        sumDC (accountDayRows s a.id ed)
      else 0) := by
  dsimp only
  have hnf := calculate_account_balance_nf s a ed
  cases hT : a.account_type <;> rw [hT] at hnf <;>
    simp only [reduceCtorEq, or_self, or_false, false_or, or_true, true_or,
      if_true, if_false, ite_true, ite_false, reduceIte] at hnf <;>
    rw [hnf] <;>
    by_cases hw : sumDC (accountDayRows s a.id ed) = 0
  all_goals simp [hw, diff3, neg_eq_zero]
  all_goals omega

/-- The accounting difference of the full balance sheet fold. -/
theorem bs_foldl_diff (s : State) (ed : Nat) :
    ∀ (L : List Account) (t : Int × Int × Int),
      diff3 (L.foldl (fun (tot : Int × Int × Int) a =>
        let balance := calculate_account_balance s a none (some ed)
        if balance = 0 then tot
        else if a.account_type = AccountType.ASSET then
          (tot.1 + balance, tot.2.1, tot.2.2)
        else if a.account_type = AccountType.LIABILITY then
          (tot.1, tot.2.1 + balance, tot.2.2)
        else if a.account_type = AccountType.EQUITY then
          (tot.1, tot.2.1, tot.2.2 + balance)
        else tot) t) =
      diff3 t + L.foldr (fun a acc =>
        (if a.account_type = AccountType.ASSET ∨
            a.account_type = AccountType.LIABILITY ∨
            a.account_type = AccountType.EQUITY then
          sumDC (accountDayRows s a.id ed)
        else 0) + acc) 0
  | [], t => by simp [diff3]
  | a :: L, t => by
    rw [List.foldl_cons, List.foldr_cons, bs_foldl_diff s ed L _, bs_step_diff]
    omega

/-- Exchanging a per-account sum for one sum over all rows hitting any
of pairwise-distinct accounts. -/
theorem foldr_w_exchange (s : State) (ed : Nat) :
    ∀ (L : List Account), (L.map Account.id).Nodup →
      L.foldr (fun a acc => sumDC (accountDayRows s a.id ed) + acc) 0 =
        sumDC ((entryRows s).filter fun r =>
          r.day ≤ ed && L.any (fun a2 => r.line.accountId = a2.id))
  | [], _ => by
    have hnil : (entryRows s).filter (fun r =>
        r.day ≤ ed && ([] : List Account).any
          (fun a2 => r.line.accountId = a2.id)) = [] := by
      rw [List.filter_eq_nil_iff]
      intro r _
      simp
    rw [hnil]
    rfl
  | a :: L, hnd => by
    rw [List.map_cons] at hnd
    obtain ⟨hni, hndL⟩ := List.nodup_cons.mp hnd
    rw [List.foldr_cons, foldr_w_exchange s ed L hndL]
    show sumDC (accountDayRows s a.id ed) + _ = _
    unfold accountDayRows
    apply sumDC_filter_split
    · intro x
      cases h1 : decide (x.day ≤ ed) <;>
        cases h2 : decide (x.line.accountId = a.id) <;>
        cases h3 : L.any (fun a2 => x.line.accountId = a2.id) <;>
        simp [List.any_cons, h1, h2, h3]
    · intro x hx
      obtain ⟨hp, hq⟩ := hx
      rw [Bool.and_eq_true] at hp hq
      have hxa : x.line.accountId = a.id := of_decide_eq_true hp.2
      obtain ⟨a2, ha2, he2⟩ := List.any_eq_true.mp hq.2
      have hida : a2.id = a.id := (of_decide_eq_true he2).symm.trans hxa
      exact hni (List.mem_map.mpr ⟨a2, ha2, hida⟩)

/-- When every revenue and expense account of the company carries no
rows, the income statement totals are zero. -/
theorem incomeTotals_zero (s : State) (company sd ed : Nat)
    (h : ∀ a ∈ s.accounts.filter (fun a => a.companyId = company && a.is_active),
      (a.account_type = AccountType.REVENUE ∨
        a.account_type = AccountType.EXPENSE) →
      calculate_account_balance s a (some sd) (some ed) = 0) :
    incomeTotals s company sd ed = (0, 0) := by
  unfold incomeTotals
  apply foldl_fixed
  intro a ha t2
  dsimp only
  by_cases hb : calculate_account_balance s a (some sd) (some ed) = 0
  · rw [if_pos hb]
  · rw [if_neg hb]
    by_cases hR : a.account_type = AccountType.REVENUE
    · exact absurd (h a ha (Or.inl hR)) hb
    · rw [if_neg hR]
      by_cases hE : a.account_type = AccountType.EXPENSE
      · exact absurd (h a ha (Or.inr hE)) hb
      · rw [if_neg hE]

/-- Under the well-formedness hypotheses, the day-bounded sum over all
rows referencing the company's active accounts vanishes: each entry of
the company contributes its balanced total, and entries of other
companies reference none of those accounts. -/
theorem total_rows_zero (s : State) (company ed : Nat)
    (hnodup : (s.accounts.map Account.id).Nodup)
    (hown : ∀ e ∈ s.entries, ∀ l ∈ e.lines, ∃ a2 ∈ s.accounts,
        a2.id = l.accountId ∧ a2.companyId = e.companyId)
    (hbal : ∀ e ∈ s.entries, e.companyId = company → sumDC (entryRowsOf e) = 0)
    (htype : ∀ e ∈ s.entries, e.companyId = company → ∀ l ∈ e.lines,
        ∀ a2 ∈ s.accounts, a2.id = l.accountId →
          a2.is_active = true ∧ (a2.account_type = AccountType.ASSET ∨
            a2.account_type = AccountType.LIABILITY ∨
            a2.account_type = AccountType.EQUITY)) :
    sumDC ((entryRows s).filter fun r =>
      r.day ≤ ed && (s.accounts.filter fun a =>
        a.companyId = company && a.is_active).any
          (fun a2 => r.line.accountId = a2.id)) = 0 := by
  have hrw : entryRows s = s.entries.foldr (fun e acc => entryRowsOf e ++ acc) [] := rfl
  rw [hrw, sumDC_filter_entryRows]
  apply foldr_add_zero
  intro e he
  by_cases hcm : e.companyId = company
  · by_cases hday : e.day ≤ ed
    · have hfe : (entryRowsOf e).filter (fun r =>
          r.day ≤ ed && (s.accounts.filter fun a =>
            a.companyId = company && a.is_active).any
              (fun a2 => r.line.accountId = a2.id)) = entryRowsOf e := by
        apply List.filter_eq_self.mpr
        intro r hr
        obtain ⟨l, hl, hrl⟩ := mem_entryRowsOf.mp hr
        subst hrl
        dsimp only
        rw [Bool.and_eq_true]
        refine ⟨decide_eq_true hday, ?_⟩
        apply List.any_eq_true.mpr
        obtain ⟨a2, ha2, hid2, hc2⟩ := hown e he l hl
        have hty := htype e he hcm l hl a2 ha2 hid2
        refine ⟨a2, ?_, decide_eq_true hid2.symm⟩
        apply List.mem_filter.mpr
        refine ⟨ha2, ?_⟩
        rw [Bool.and_eq_true]
        exact ⟨decide_eq_true (hc2.trans hcm), hty.1⟩
      rw [hfe]
      exact hbal e he hcm
    · have hfe : (entryRowsOf e).filter (fun r =>
          r.day ≤ ed && (s.accounts.filter fun a =>
            a.companyId = company && a.is_active).any
              (fun a2 => r.line.accountId = a2.id)) = [] := by
        rw [List.filter_eq_nil_iff]
        intro r hr
        obtain ⟨l, hl, hrl⟩ := mem_entryRowsOf.mp hr
        subst hrl
        simp [hday]
      rw [hfe]
      rfl
  · have hfe : (entryRowsOf e).filter (fun r =>
        r.day ≤ ed && (s.accounts.filter fun a =>
          a.companyId = company && a.is_active).any
            (fun a2 => r.line.accountId = a2.id)) = [] := by
      rw [List.filter_eq_nil_iff]
      intro r hr
      obtain ⟨l, hl, hrl⟩ := mem_entryRowsOf.mp hr
      subst hrl
      intro hpr
      rw [Bool.and_eq_true] at hpr
      obtain ⟨a2, ha2, he2⟩ := List.any_eq_true.mp hpr.2
      obtain ⟨ha2S, hpred⟩ := List.mem_filter.mp ha2
      rw [Bool.and_eq_true] at hpred
      obtain ⟨a3, ha3, hid3, hc3⟩ := hown e he l hl
      have h23 : a2 = a3 := account_id_inj hnodup ha2S ha3
        ((of_decide_eq_true he2).symm.trans hid3.symm)
      apply hcm
      rw [← hc3, ← h23]
      exact of_decide_eq_true hpred.1
    rw [hfe]
    rfl

/-! ### Claim theorems -/

/-- Claim C1: whenever every stored snapshot of the (company, account)
pair is accurate (equals the direct full-history sum up to its own
date — the invariant `create_balance` maintains), the snapshot-assisted
`calculate_balance` agrees exactly with the direct full-history
summation up to the requested timestamp, with and without an applicable
snapshot; exact equality is stronger than the claimed 0.01 tolerance. -/
theorem calculate_balance_consistency (s : State) (company accountId timestamp : Nat)
    (hacc : ∀ b ∈ snapshotsFor s company accountId,
      b.balance = calculate_balance_direct s company accountId none (dateOf b.timestamp)) :
    calculate_balance s company accountId timestamp =
      calculate_balance_direct s company accountId none (dateOf timestamp) := by
  rw [calculate_balance_direct_none]
  unfold calculate_balance
  cases hsnap : latestByTimestamp
      ((snapshotsFor s company accountId).filter fun b =>
        b.timestamp ≤ timestamp) with
  | none =>
    dsimp only
    rw [zero_add]
    simp only [List.filter_filter]
    exact sumCD_filter_and_comm _ _ _
  | some snap =>
    dsimp only
    have hmem := latestByTimestamp_mem hsnap
    have hsf : snap ∈ snapshotsFor s company accountId := List.mem_of_mem_filter hmem
    have hts : snap.timestamp ≤ timestamp := by
      have hm2 := (List.mem_filter.mp hmem).2
      exact of_decide_eq_true hm2
    have hD : dateOf snap.timestamp ≤ dateOf timestamp := Nat.div_le_div_right hts
    rw [hacc snap hsf, calculate_balance_direct_none]
    simp only [List.filter_filter]
    exact sumCD_day_split
      (fun r => r.line.accountId = accountId && r.companyId = company)
      (entryRows s) (dateOf snap.timestamp) (dateOf timestamp) hD

/-- Claim C1 witness: in `snapState` the single Cash snapshot is
accurate, and the snapshot-assisted balance at tick 950400 (day 11)
agrees with the direct summation. -/
theorem calculate_balance_consistency_witness :
    (∀ b ∈ snapshotsFor snapState 1 1,
        b.balance = calculate_balance_direct snapState 1 1 none (dateOf b.timestamp)) ∧
      calculate_balance snapState 1 1 950400 =
        calculate_balance_direct snapState 1 1 none (dateOf 950400) :=
  ⟨by decide, calculate_balance_consistency snapState 1 1 950400 (by decide)⟩

/-- Claim C10: every code `c` returned by `COAHelper.get_children(p, S)`
satisfies `COAHelper.get_parent(c) = p`: stripping the final
dot-separated segment of a direct child recovers exactly the code it was
listed under. -/
theorem get_children_get_parent (p : List Char) (all : List (List Char))
    (c : List Char) (hc : c ∈ get_children p all) : get_parent c = some p := by
  obtain ⟨-, hpred⟩ := List.mem_filter.mp hc
  rw [Bool.and_eq_true] at hpred
  obtain ⟨hlead, hnodot⟩ := hpred
  obtain ⟨zs, hz⟩ := leadsWith_exists _ _ hlead
  have hany : (c.drop (p.length + 1)).any (fun ch => ch = '.') = false := by
    cases hA : (c.drop (p.length + 1)).any (fun ch => ch = '.') with
    | false => rfl
    | true => rw [hA] at hnodot; exact absurd hnodot (by decide)
  have hdrop : c.drop (p.length + 1) = zs := by
    rw [hz]
    have hlen : (p ++ ['.']).length = p.length + 1 := by simp
    rw [← hlen, List.drop_left]
  have hzs : ∀ ch ∈ zs, ch ≠ '.' := by
    intro ch hch heq
    have hm : ch ∈ c.drop (p.length + 1) := by rw [hdrop]; exact hch
    have hT : (c.drop (p.length + 1)).any (fun x => x = '.') = true :=
      List.any_eq_true.mpr ⟨ch, hm, decide_eq_true heq⟩
    simp [hany] at hT
  have hsplit : splitOnDot c = splitOnDot p ++ [zs] := by
    rw [hz, List.append_assoc]
    exact splitOnDot_append p zs hzs
  show (if (splitOnDot c).length ≤ 1 then none
    else some (joinDot (splitOnDot c).dropLast)) = some p
  rw [hsplit]
  have hlen1 : 1 ≤ (splitOnDot p).length := by
    cases hsp : splitOnDot p with
    | nil => exact absurd hsp (splitOnDot_ne_nil p)
    | cons a as => simp
  rw [if_neg (by
    simp only [List.length_append, List.length_cons, List.length_nil]
    omega)]
  rw [List.dropLast_concat, joinDot_splitOnDot]

/-- Claim C10 witness: a concrete parent, child list and child. -/
theorem get_children_get_parent_witness :
    ("1.1.2".toList ∈ get_children "1.1".toList ["1.1.2".toList]) ∧
      get_parent "1.1.2".toList = some "1.1".toList :=
  ⟨by decide, get_children_get_parent "1.1".toList ["1.1.2".toList] "1.1.2".toList
    (by decide)⟩

/-- Claim C4 counterexample: in `contraState` the inactive asset account
named "Petty CASH box" is returned by the source resolution although the
claim requires the first ACTIVE asset account (here `bankAcct`, which
the claim-side definition returns). -/
theorem contra_account_ignores_is_active :
    get_default_contra_account contraState 2 = .ok inactiveCashAcct ∧
      inactiveCashAcct.is_active = false ∧
      contraAccountPerClaim contraState 2 = .ok bankAcct ∧
      bankAcct.is_active = true :=
  ⟨rfl, rfl, rfl, rfl⟩

/-- Claim C4 amended: contra-account resolution returns the first ASSET
account of the company whose name contains "cash" case-insensitively
(regardless of active status); if none exists, the first ASSET account
of the company; and fails with the configuration error if the company
has no ASSET account at all. -/
theorem contra_account_first_asset (s : State) (company : Nat) :
    get_default_contra_account s company =
      match s.accounts.find? (fun a =>
          a.companyId = company && a.account_type = AccountType.ASSET &&
            hasCashName a.account_name) with
      | some contra => .ok contra
      | none =>
        match s.accounts.find? (fun a =>
            a.companyId = company && a.account_type = AccountType.ASSET) with
        | some contra => .ok contra
        | none => .error .valueErr := by
  unfold get_default_contra_account
  rw [head_filter_eq_find, head_filter_eq_find]

/-- Claim C5: when a snapshot for the pair already exists at `t1 ≥ t2`,
`create_balance` at `t2` raises `RetroactiveOperationError` and returns
the state unchanged.  The hypothesis `hnf` is the database check
constraint `balance_timestamp_not_future` (snapshot timestamps are never
later than the clock). -/
theorem create_balance_retroactive (now : Nat) (s : State)
    (company accountId t1 t2 : Nat) (b : Snapshot)
    (hb : b ∈ snapshotsFor s company accountId) (hbt : b.timestamp = t1)
    (h21 : t2 ≤ t1) (hnf : ∀ b2 ∈ s.snapshots, b2.timestamp ≤ now) :
    create_balance now s company accountId t2 = (s, .error .retroactiveOp) := by
  have hbs : b ∈ s.snapshots := List.mem_of_mem_filter hb
  have hle : t2 ≤ now := le_trans (hbt ▸ h21) (hnf b hbs)
  unfold create_balance
  rw [if_neg (by omega)]
  rw [if_pos (List.any_eq_true.mpr ⟨b, hb, decide_eq_true (hbt ▸ h21)⟩)]

/-- Claim C5 witness: a concrete snapshot at tick 518400 blocks a new
snapshot at tick 400000. -/
theorem create_balance_retroactive_witness :
    create_balance 600000 snapState 1 1 400000 = (snapState, .error .retroactiveOp) :=
  create_balance_retroactive 600000 snapState 1 1 518400 400000
    ⟨1, 1, 518400, -10000⟩ (by decide) rfl (by decide) (by decide)

/-- Claim C8: for a validated transaction with an assigned account,
nonzero amount and resolvable contra account, the created journal entry
holds exactly the two lines of the claimed direction table
(`claimEntryLines`), and is appended to the entry table. -/
theorem create_entry_direction (s : State) (t : Transaction)
    (target contra : Account) (hv : t.is_validated = true)
    (ha : t.account = some target) (hnz : t.amount ≠ 0)
    (hc : get_default_contra_account s t.companyId = Except.ok contra) :
    createJournalEntryFromTransaction s t =
      ({ s with entries := s.entries ++
          [⟨s.entries.length, t.companyId, t.day,
            claimEntryLines target contra t.amount⟩] },
        Except.ok ⟨s.entries.length, t.companyId, t.day,
          claimEntryLines target contra t.amount⟩) := by
  unfold createJournalEntryFromTransaction
  rw [ha]
  simp only [hv, Bool.not_true, Bool.false_eq_true, if_false]
  rw [get_default_contra_account_state, hc]
  unfold claimEntryLines
  rfl

/-- Claim C8 witness: a negative-amount transaction targeting an asset
account credits the target and debits the contra account. -/
theorem create_entry_direction_witness :
    createJournalEntryFromTransaction contraState negTrans =
      ({ contraState with entries := contraState.entries ++
          [⟨0, 2, 4, claimEntryLines bankAcct inactiveCashAcct (-2500)⟩] },
        Except.ok ⟨0, 2, 4, claimEntryLines bankAcct inactiveCashAcct (-2500)⟩) :=
  create_entry_direction contraState negTrans bankAcct inactiveCashAcct
    rfl rfl (by decide) rfl

/-- Claim C2 is violated by the code: `sampleState` has a single
individually balanced entry (debit Cash 100.00, credit Revenue 100.00),
yet `TrialBalanceService.generate` reports total_debits = 0,
total_credits = 200.00 and `is_balanced = false` on both balance paths,
because every balance is computed as credit − debit while the column
classification expects debit-normal balances to be debit-positive. -/
theorem trial_balance_sign_convention_bug :
    (∀ e ∈ sampleState.entries, sumDC (entryRowsOf e) = 0) ∧
      generate sampleState 1 none 10 false =
        { total_debits := 0, total_credits := 20000, is_balanced := false } ∧
      generate sampleState 1 none 10 true =
        { total_debits := 0, total_credits := 20000, is_balanced := false } :=
  ⟨by decide, rfl, rfl⟩

/-- Claim C3 is violated by the code: company 3 has no asset account, so
contra resolution raises the configuration `ValueError`, but the
`JournalEntry` row was already persisted before that lookup; the
function leaves a line-less entry behind instead of nothing. -/
theorem create_entry_partial_persistence :
    (createJournalEntryFromTransaction noAssetState rentTrans).2 =
        .error .valueErr ∧
      (createJournalEntryFromTransaction noAssetState rentTrans).1.entries =
        [⟨0, 3, 7, []⟩] :=
  ⟨rfl, rfl⟩

/-- Claim C7 counterexample: in `bsBugState` every journal entry is
individually balanced and every line sits on an ASSET, LIABILITY or
EQUITY account of the company, exactly as the claim requires, yet
`get_balance_sheet` reports total_assets = 0 against total_liabilities
= 100.00 with `balanced = false`: the asset side of the entry lies on a
soft-deactivated account, and the report loop only visits active
accounts, so the claimed accounting equation fails by 100.00. -/
theorem balance_sheet_inactive_account_cex :
    (∀ e ∈ bsBugState.entries, sumDC (entryRowsOf e) = 0) ∧
      (∀ e ∈ bsBugState.entries, ∀ l ∈ e.lines, ∀ a ∈ bsBugState.accounts,
        a.id = l.accountId → (a.account_type = AccountType.ASSET ∨
          a.account_type = AccountType.LIABILITY ∨
          a.account_type = AccountType.EQUITY)) ∧
      (get_balance_sheet bsBugState 5 5).total_assets = 0 ∧
      (get_balance_sheet bsBugState 5 5).total_liabilities = 10000 ∧
      (get_balance_sheet bsBugState 5 5).total_equity = 0 ∧
      (get_balance_sheet bsBugState 5 5).balanced = false :=
  ⟨by decide, by decide, rfl, rfl, rfl, rfl⟩

/-- Claim C7 amended: for a company whose journal entries are
individually balanced and whose lines reference only ACTIVE asset,
liability and equity accounts of that company (with globally distinct
account primary keys, as the database enforces), the balance sheet
satisfies total_assets = total_liabilities + total_equity exactly — net
income, folded into equity, is zero since no revenue or expense account
carries lines — and the `balanced` flag is true.  Exact equality is
stronger than the claimed 0.01 tolerance.  The activity condition is
forced by `balance_sheet_inactive_account_cex`: the report loop visits
active accounts only, so a balanced entry on an inactive account breaks
the equation. -/
theorem balance_sheet_equation (s : State) (company ed : Nat)
    (hnodup : (s.accounts.map Account.id).Nodup)
    (hown : ∀ e ∈ s.entries, ∀ l ∈ e.lines, ∃ a2 ∈ s.accounts,
        a2.id = l.accountId ∧ a2.companyId = e.companyId)
    (hbal : ∀ e ∈ s.entries, e.companyId = company → sumDC (entryRowsOf e) = 0)
    (htype : ∀ e ∈ s.entries, e.companyId = company → ∀ l ∈ e.lines,
        ∀ a2 ∈ s.accounts, a2.id = l.accountId →
          a2.is_active = true ∧ (a2.account_type = AccountType.ASSET ∨
            a2.account_type = AccountType.LIABILITY ∨
            a2.account_type = AccountType.EQUITY)) :
    (get_balance_sheet s company ed).total_assets =
      (get_balance_sheet s company ed).total_liabilities +
        (get_balance_sheet s company ed).total_equity ∧
      (get_balance_sheet s company ed).balanced = true := by
  have hsub : ((s.accounts.filter fun a =>
      a.companyId = company && a.is_active).map Account.id).Nodup :=
    List.Nodup.sublist (List.Sublist.map _ (List.filter_sublist _)) hnodup
  have hmemdec : ∀ a ∈ s.accounts.filter
      (fun a => a.companyId = company && a.is_active),
      a ∈ s.accounts ∧ a.companyId = company ∧ a.is_active = true := by
    intro a ha
    obtain ⟨h1, h2⟩ := List.mem_filter.mp ha
    rw [Bool.and_eq_true] at h2
    exact ⟨h1, of_decide_eq_true h2.1, h2.2⟩
  have hnoRE : ∀ a ∈ s.accounts.filter
      (fun a => a.companyId = company && a.is_active),
      (a.account_type = AccountType.REVENUE ∨
        a.account_type = AccountType.EXPENSE) →
      ∀ r ∈ entryRows s, r.line.accountId ≠ a.id := by
    intro a ha hRE
    obtain ⟨haS, hcomp, -⟩ := hmemdec a ha
    apply no_row_on_nonALE s company hnodup hown htype a haS hcomp
    rcases hRE with h | h <;> rw [h] <;>
      rintro (hx | hx | hx) <;> exact absurd hx (by decide)
  have hnet : calculate_net_income s company ed = 0 := by
    unfold calculate_net_income
    rw [incomeTotals_zero s company (yearStartDay ed) ed
      (fun a ha hre => cab_zero_of_no_rows s a _ _ (hnoRE a ha hre))]
    rfl
  have hdiff : diff3 ((s.accounts.filter fun a =>
      a.companyId = company && a.is_active).foldl
      (fun (tot : Int × Int × Int) a =>
        if calculate_account_balance s a none (some ed) = 0 then tot
        else if a.account_type = AccountType.ASSET then
          (tot.1 + calculate_account_balance s a none (some ed), tot.2.1, tot.2.2)
        else if a.account_type = AccountType.LIABILITY then
          (tot.1, tot.2.1 + calculate_account_balance s a none (some ed), tot.2.2)
        else if a.account_type = AccountType.EQUITY then
          (tot.1, tot.2.1, tot.2.2 + calculate_account_balance s a none (some ed))
        else tot) (0, 0, 0)) = 0 := by
    show diff3 ((s.accounts.filter fun a =>
      a.companyId = company && a.is_active).foldl
      (fun (tot : Int × Int × Int) a =>
        let balance := calculate_account_balance s a none (some ed)
        if balance = 0 then tot
        else if a.account_type = AccountType.ASSET then
          (tot.1 + balance, tot.2.1, tot.2.2)
        else if a.account_type = AccountType.LIABILITY then
          (tot.1, tot.2.1 + balance, tot.2.2)
        else if a.account_type = AccountType.EQUITY then
          (tot.1, tot.2.1, tot.2.2 + balance)
        else tot) (0, 0, 0)) = 0
    rw [bs_foldl_diff]
    rw [show diff3 (0, 0, 0) = 0 from rfl, zero_add]
    rw [foldr_add_congr _ (fun a => sumDC (accountDayRows s a.id ed)) _ ?_]
    · rw [foldr_w_exchange s ed _ hsub]
      exact total_rows_zero s company ed hnodup hown hbal htype
    · intro a ha
      by_cases hALE : a.account_type = AccountType.ASSET ∨
          a.account_type = AccountType.LIABILITY ∨
          a.account_type = AccountType.EQUITY
      · rw [if_pos hALE]
      · rw [if_neg hALE]
        have hRE : a.account_type = AccountType.REVENUE ∨
            a.account_type = AccountType.EXPENSE := by
          cases hT : a.account_type <;> rw [hT] at hALE <;> simp at hALE ⊢
        dsimp only
        rw [accountDayRows_nil s a ed (hnoRE a ha hRE)]
        rfl
  unfold get_balance_sheet
  dsimp only
  rw [hnet]
  simp only [ite_self, add_zero]
  unfold diff3 at hdiff
  constructor
  · omega
  · apply decide_eq_true
    rw [abs_lt]
    constructor <;> omega

/-- Claim C7 witness: company 4's concrete asset/liability ledger. -/
theorem balance_sheet_equation_witness :
    ((bsState.accounts.map Account.id).Nodup ∧
      (∀ e ∈ bsState.entries, ∀ l ∈ e.lines, ∃ a2 ∈ bsState.accounts,
        a2.id = l.accountId ∧ a2.companyId = e.companyId) ∧
      (∀ e ∈ bsState.entries, e.companyId = 4 → sumDC (entryRowsOf e) = 0) ∧
      (∀ e ∈ bsState.entries, e.companyId = 4 → ∀ l ∈ e.lines,
        ∀ a2 ∈ bsState.accounts, a2.id = l.accountId →
          a2.is_active = true ∧ (a2.account_type = AccountType.ASSET ∨
            a2.account_type = AccountType.LIABILITY ∨
            a2.account_type = AccountType.EQUITY))) ∧
      ((get_balance_sheet bsState 4 5).total_assets =
        (get_balance_sheet bsState 4 5).total_liabilities +
          (get_balance_sheet bsState 4 5).total_equity ∧
        (get_balance_sheet bsState 4 5).balanced = true) :=
  ⟨⟨by decide, by decide, by decide, by decide⟩,
    balance_sheet_equation bsState 4 5 (by decide) (by decide) (by decide)
      (by decide)⟩

/-- Claim C9: with distinct account primary keys (the database key
constraint), running `save_balances` twice in a row — same clock, same
company, same timestamp, and no journal entry lines added in between —
returns a state identical to the one after the first run: the second
run creates no snapshot row (each account is either skipped by the
no-new-entries check or its `create_balance` call fails and is
swallowed). -/
theorem save_balances_idempotent (now : Nat) (s : State) (company ts : Nat)
    (hnodup : ((s.accounts.filter fun a =>
      a.companyId = company && a.is_active).map (fun a => a.id)).Nodup) :
    save_balances now (save_balances now s company ts) company ts =
      save_balances now s company ts := by
  have hacc : (List.foldl (fun st i => processAccount now company ts st i) s
      ((s.accounts.filter fun a => a.companyId = company && a.is_active).map
        (fun a => a.id))).accounts = s.accounts :=
    foldl_processAccount_accounts now company ts _ s
  unfold save_balances
  rw [hacc]
  exact foldl_processAccount_idem now company ts _ s hnodup

/-- Claim C9 witness: the concrete company-1 ledger. -/
theorem save_balances_idempotent_witness :
    (((sampleState.accounts.filter fun a =>
        a.companyId = 1 && a.is_active).map (fun a => a.id)).Nodup) ∧
      save_balances 1728000 (save_balances 1728000 sampleState 1 864000) 1 864000 =
        save_balances 1728000 sampleState 1 864000 :=
  ⟨by decide, save_balances_idempotent 1728000 sampleState 1 864000 (by decide)⟩

/-- Claim C6 is violated by the code for journal entries: snapshot
creation at a future tick does raise `FutureOperationError` and leave
the state unchanged, but `create_journal_entry_from_transaction` never
consults the clock (it takes no `now`), so a transaction dated day 9999
is expanded and persisted instead of being rejected. -/
theorem create_entry_no_future_guard :
    create_balance 0 contraState 2 4 864000 = (contraState, .error .futureOp) ∧
      (createJournalEntryFromTransaction contraState futureTrans).2 =
        .ok ⟨0, 2, 9999, [⟨4, 5000, 0⟩, ⟨3, 0, 5000⟩]⟩ ∧
      (createJournalEntryFromTransaction contraState futureTrans).1.entries =
        [⟨0, 2, 9999, [⟨4, 5000, 0⟩, ⟨3, 0, 5000⟩]⟩] :=
  ⟨rfl, rfl, rfl⟩

end Orion
